import Mathlib

/-!
# zlint: certificate lints and the batch worker

A shallow embedding of five lints (`src/lints/*.go`) and of the batch worker
(`src/cmd/zlint/main.go`), followed by the properties established about them.

Conventions of the embedding.

* A Go function that can stop with a run-time panic or with `log.Fatal`
  returns `Except Abort _`; the `error` case is the abort.
* Go byte slices are lists of naturals, `asn1.ObjectIdentifier` (`[]int`) is a
  list of integers, `time.Time` is an integer instant.
* The certificate is the value the X.509 decoder hands over: a public key of
  dynamic type `*rsa.PublicKey` points to a key whose modulus is present.
* Code outside the repository sources that a function calls
  (`util.IsRootCA`, the base64 decoder, the certificate decoder, ...) is a
  field of `Util` or `Env`, so every statement holds for all behaviours of it.
  The exceptions are marked `Modelled from the spec:`; they are the result
  types, the three object identifier constants, `util.SliceContainsOID` and
  `util.TypeInName`.
* The sample values at the end of the definitions instantiate `Util` and `Env`
  for the concrete instances; the certificate decoder among them is a
  stand-in.
-/

set_option autoImplicit false

namespace Zlint

/-! ## Data model -/

/-- The two ways a Go function of this program stops the process. -/
inductive Abort where
  | panic (what : String)
  | logFatal (msg : String)
  deriving Repr, DecidableEq

/-- Go `[]byte`. -/
abbrev Bytes := List Nat

/-- Go `asn1.ObjectIdentifier`, declared as `[]int`. -/
abbrev ObjectIdentifier := List Int

/-- Go `time.Time`, as an instant on the integer time line. -/
abbrev Time := Int

/-- Go `time.Time.Before`. -/
def Time.Before (t u : Time) : Bool := decide (t < u)

/-- Go `asn1.ObjectIdentifier.Equal`: same length and the same arcs. -/
def ObjectIdentifier.Equal : ObjectIdentifier → ObjectIdentifier → Bool
  | [], [] => true
  | a :: oi, b :: other => if a ≠ b then false else ObjectIdentifier.Equal oi other
  | _, _ => false

/-- Go `big.Int.BitLen`: the length of the absolute value in bits, 0 for 0. -/
def bigInt.BitLen (x : Int) : Nat := Nat.size x.natAbs

/-- Modelled from the spec: the status enumeration of the result model
(the declaration of `LintStatus` is not among the sources). -/
inductive LintStatus where
  | Reserved | NA | NE | Pass | Info | Warn | Error | Fatal
  deriving Repr, DecidableEq

/-- Modelled from the spec: `LintResult`, the value a lint returns; only the
status is set by the lints below, the details stay at their zero value. -/
structure LintResult where
  Status : LintStatus
  Details : String := ""
  deriving Repr, DecidableEq

/-- Modelled from the spec: `ResultStruct`, the value the older `RunTest`
interface returns. -/
structure ResultStruct where
  Result : LintStatus := LintStatus.Reserved
  Details : String := ""
  deriving Repr, DecidableEq

/-- Go `pkix.AttributeTypeAndValue`; the field `Type` is spelled `Typ`. -/
structure AttributeTypeAndValue where
  Typ : ObjectIdentifier
  Value : String
  deriving Repr, DecidableEq

/-- Go `pkix.Name`, the fields the lints read. -/
structure Name where
  Names : List AttributeTypeAndValue := []
  GivenName : List String := []
  Surname : List String := []
  deriving Repr, DecidableEq

/-- Go `rsa.PublicKey`. -/
structure rsa.PublicKey where
  N : Int
  E : Int
  deriving Repr, DecidableEq

/-- The dynamic type of the `PublicKey interface{}` field of a certificate. -/
inductive PublicKey where
  | nil
  | rsa (key : rsa.PublicKey)
  | dsa
  | ecdsa
  deriving Repr, DecidableEq

/-- Go `x509.PublicKeyAlgorithm`. -/
inductive PublicKeyAlgorithm where
  | UnknownPublicKeyAlgorithm | RSA | DSA | ECDSA
  deriving Repr, DecidableEq

/-- Go `asn1.RawValue`. -/
structure RawValue where
  Class : Int := 0
  Tag : Int
  IsCompound : Bool := false
  Bytes : Zlint.Bytes
  FullBytes : Zlint.Bytes := []
  deriving Repr, DecidableEq

/-- Go `x509.Certificate`, the fields the lints and the worker read. -/
structure Certificate where
  RawIssuer : Bytes := []
  Issuer : Name := {}
  Subject : Name := {}
  NotBefore : Time := 0
  NotAfter : Time := 0
  PublicKeyAlgorithm : Zlint.PublicKeyAlgorithm := Zlint.PublicKeyAlgorithm.UnknownPublicKeyAlgorithm
  PublicKey : Zlint.PublicKey := Zlint.PublicKey.nil
  IsCA : Bool := false
  SelfSigned : Bool := false
  PolicyIdentifiers : List ObjectIdentifier := []
  ExplicitTexts : List (List RawValue) := []
  FingerprintSHA256 : Bytes := []
  deriving Repr, DecidableEq

/-- The functions and constants of package `util` that the lints call and
whose text is not among the sources. -/
structure Util where
  IsRootCA : Certificate → Bool
  IsSubscriberCert : Certificate → Bool
  NoRSA1024RootDate : Time
  /-- Returns `(leading, trailing, err)`. -/
  CheckRDNSequenceWhiteSpace : Bytes → Bool × Bool × Option String

/-- Modelled from the spec: `util.BRIndividualValidatedOID`, the policy
identifier 2.23.140.1.2.3 named in the description of the givenName/surname
lint (the constant is not among the sources). -/
def util.BRIndividualValidatedOID : ObjectIdentifier := [2, 23, 140, 1, 2, 3]

/-- Modelled from the spec: `util.BROrganizationValidatedOID`, the policy
identifier 2.23.140.1.2.2 named in the description of the organizationName
lint (the constant is not among the sources). -/
def util.BROrganizationValidatedOID : ObjectIdentifier := [2, 23, 140, 1, 2, 2]

/-- Modelled from the spec: `util.OrganizationNameOID`, the attribute type
organizationName, 2.5.4.10 (the constant is not among the sources). -/
def util.OrganizationNameOID : ObjectIdentifier := [2, 5, 4, 10]

/-- Modelled from the spec: `util.SliceContainsOID`, which is not among the
sources: whether the list of identifiers includes the given one. -/
def util.SliceContainsOID : List ObjectIdentifier → ObjectIdentifier → Bool
  | [], _ => false
  | v :: list, oid => if ObjectIdentifier.Equal oid v then true else util.SliceContainsOID list oid

/-- Modelled from the spec: `util.TypeInName`, which is not among the
sources: whether the name includes an attribute of the given type. -/
def util.TypeInName.scan : List AttributeTypeAndValue → ObjectIdentifier → Bool
  | [], _ => false
  | v :: names, oid => if ObjectIdentifier.Equal oid v.Typ then true else util.TypeInName.scan names oid

/-- Modelled from the spec: `util.TypeInName` on a `pkix.Name`. -/
def util.TypeInName (name : Name) (oid : ObjectIdentifier) : Bool :=
  util.TypeInName.scan name.Names oid

/-! ## `lint_old_root_ca_rsa_mod_less_than_2048_bits.go` -/

/-- The lint applies to RSA root certificates issued before the cut-off. -/
def rootCaModSize.CheckApplies (u : Util) (c : Certificate) : Bool :=
  let issueDate := c.NotBefore
  let ok := match c.PublicKey with
    | PublicKey.rsa _ => true
    | _ => false
  ok && c.PublicKeyAlgorithm == PublicKeyAlgorithm.RSA && u.IsRootCA c
    && Time.Before issueDate u.NoRSA1024RootDate

/-- The type assertion `c.PublicKey.(*rsa.PublicKey)` panics on any other
dynamic type. -/
def rootCaModSize.Execute (c : Certificate) : Except Abort LintResult :=
  match c.PublicKey with
  | PublicKey.rsa key =>
    if bigInt.BitLen key.N < 2048 then
      Except.ok { Status := LintStatus.Error }
    else
      Except.ok { Status := LintStatus.Pass }
  | _ => Except.error (Abort.panic "interface conversion: not *rsa.PublicKey")

/-! ## `lint_ext_cert_policy_explicit_text_too_long.go` -/

/-- The inner loop of `Execute`: the first text of more than 200 bytes ends
the whole function with `Error`. -/
def explicitTextTooLong.Execute.inner : List RawValue → Option LintResult
  | [] => none
  | text :: rest =>
    if text.Bytes.length > 200 then some { Status := LintStatus.Error }
    else explicitTextTooLong.Execute.inner rest

/-- The outer loop of `Execute`. -/
def explicitTextTooLong.Execute.outer : List (List RawValue) → LintResult
  | [] => { Status := LintStatus.Pass }
  | firstLvl :: rest =>
    match explicitTextTooLong.Execute.inner firstLvl with
    | some r => r
    | none => explicitTextTooLong.Execute.outer rest

/-- The check of the explicitText lint. -/
def explicitTextTooLong.Execute (c : Certificate) : LintResult :=
  explicitTextTooLong.Execute.outer c.ExplicitTexts

/-- ASN.1 universal tag of UTF8String. -/
def TagUTF8String : Int := 12

/-- ASN.1 universal tag of VisibleString. -/
def TagVisibleString : Int := 26

/-- ASN.1 universal tag of BMPString. -/
def TagBMPString : Int := 30

/-- The requirement as the file header words it (RFC 6818: "a string with a
maximum size of 200 characters"): the number of characters of an explicitText.
A BMPString spends two bytes on each character, a UTF8String one byte that is
not a continuation byte (`10xxxxxx`) on each character, a VisibleString one
byte on each character. -/
def explicitTextCharacters (text : RawValue) : Nat :=
  if text.Tag = TagBMPString then text.Bytes.length / 2
  else if text.Tag = TagUTF8String then (text.Bytes.filter (fun b => b / 64 ≠ 2)).length
  else text.Bytes.length

/-- The requirement as the file header words it, for a whole certificate:
some explicitText is longer than 200 characters. -/
def someExplicitTextOver200Characters (c : Certificate) : Prop :=
  ∃ firstLvl ∈ c.ExplicitTexts, ∃ text ∈ firstLvl, 200 < explicitTextCharacters text

/-! ## `lint_sub_cert_gn_sn_contains_policy.go` -/

/-- The lint applies to subscriber certificates with a givenName or surname. -/
def subCertSubjectGnOrSnContainsPolicy.CheckApplies (u : Util) (c : Certificate) : Bool :=
  u.IsSubscriberCert c && (c.Subject.GivenName.length != 0 || c.Subject.Surname.length != 0)

/-- The loop of `Execute` over the policy identifiers. -/
def subCertSubjectGnOrSnContainsPolicy.Execute.loop : List ObjectIdentifier → LintResult
  | [] => { Status := LintStatus.Error }
  | policyIds :: rest =>
    if ObjectIdentifier.Equal policyIds util.BRIndividualValidatedOID then
      { Status := LintStatus.Pass }
    else subCertSubjectGnOrSnContainsPolicy.Execute.loop rest

/-- The check of the givenName/surname lint. -/
def subCertSubjectGnOrSnContainsPolicy.Execute (c : Certificate) : LintResult :=
  subCertSubjectGnOrSnContainsPolicy.Execute.loop c.PolicyIdentifiers

/-! ## `lint_cert_policy_requires_org.go` -/

/-- The lint applies when the organization-validated policy is asserted. -/
def CertPolicyRequiresOrg.CheckApplies (cert : Certificate) : Bool :=
  util.SliceContainsOID cert.PolicyIdentifiers util.BROrganizationValidatedOID

/-- Returns the result and the Go `error`, which is always `nil` (`none`). -/
def CertPolicyRequiresOrg.RunTest (cert : Certificate) : ResultStruct × Option String :=
  let out : ResultStruct := {}
  let out :=
    if util.TypeInName cert.Subject util.OrganizationNameOID then
      { out with Result := LintStatus.Pass }
    else
      { out with Result := LintStatus.Error }
  (out, none)

/-! ## `lint_issuer_dn_leading_whitespace.go` -/

/-- The lint applies to every certificate. -/
def IssuerDNLeadingSpace.CheckApplies (_c : Certificate) : Bool := true

/-- The check of the issuer whitespace lint. -/
def IssuerDNLeadingSpace.Execute (u : Util) (c : Certificate) : LintResult :=
  match u.CheckRDNSequenceWhiteSpace c.RawIssuer with
  | (leading, _, err) =>
    if err ≠ none then { Status := LintStatus.Fatal }
    else if leading then { Status := LintStatus.Warn }
    else { Status := LintStatus.Pass }

/-! ## `cmd/zlint/main.go` -/

/-- A value that `encoding/json` decodes into an `interface{}`: `nil`, a
`bool`, a `float64` (kept as its literal), a `string`, a `[]interface{}` or a
`map[string]interface{}` (kept as its members). -/
inductive JSON where
  | null
  | bool (b : Bool)
  | number (literal : String)
  | string (s : String)
  | array (elems : List JSON)
  | object (members : List (String × JSON))

/-- Go `m[key]` on a `map[string]interface{}`: the value stored under the
key, `nil` when there is none. -/
def JSON.index : List (String × JSON) → String → JSON
  | [], _ => JSON.null
  | (k, v) :: members, key => if k = key then v else JSON.index members key

/-- Go `v != nil` on an `interface{}` holding a decoded JSON value. -/
def JSON.notNil : JSON → Bool
  | JSON.null => false
  | _ => true

/-- Modelled from the spec: `zlint.ResultSet`, reduced to the derived lists
of rule names the worker reads (its declaration is not among the sources). -/
structure ResultSet where
  Errors : List String := []
  Warnings : List String := []
  Fatals : List String := []
  deriving Repr, DecidableEq

/-- The struct `Validation`. -/
structure Validation where
  nssValid : Bool := false
  nssWasValid : Bool := false
  deriving Repr, DecidableEq

/-- The library functions the worker calls. -/
structure Env where
  /-- The call `base64.StdEncoding.DecodeString`: the bytes decoded (those
  decoded before an error too) and the error. -/
  DecodeString : String → Bytes × Option String
  /-- The call `x509.ParseCertificate`: the certificate or the error. -/
  ParseCertificate : Bytes → Except String Certificate
  /-- The call `zlint.LintCertificate`. -/
  LintCertificate : Certificate → ResultSet
  /-- The call `json.Marshal` on the output record of `CustomMarshal`. -/
  Marshal : JSON → ResultSet → Bytes → Certificate → Except String Bytes
  /-- The method `pkix.Name.String`. -/
  NameString : Name → String
  /-- The method `time.Time.String`. -/
  TimeString : Time → String
  /-- The method `Hex` of the fingerprint. -/
  Hex : Bytes → String

/-- The marshalling of one output record. -/
def CustomMarshal (env : Env) (validation : JSON) (lintResult : ResultSet) (raw : Bytes)
    (parsed : Certificate) : Except String Bytes :=
  env.Marshal validation lintResult raw parsed

/-- Each of the four type assertions panics when the value has another
dynamic type. -/
def FillOutValidationStruct (validation : JSON) : Except Abort Validation :=
  let v : Validation := {}
  match validation with
  | JSON.object validationMap =>
    match JSON.index validationMap "nss" with
    | JSON.object nssMap =>
      match JSON.index nssMap "valid" with
      | JSON.bool nssValid =>
        let v := { v with nssValid := nssValid }
        match JSON.index nssMap "was_valid" with
        | JSON.bool nssWasValid => Except.ok { v with nssWasValid := nssWasValid }
        | _ => Except.error (Abort.panic "interface conversion: was_valid is not bool")
      | _ => Except.error (Abort.panic "interface conversion: valid is not bool")
    | _ => Except.error (Abort.panic "interface conversion: nss is not map[string]interface {}")
  | _ => Except.error (Abort.panic "interface conversion: validation is not map[string]interface {}")

/-- Go `strconv.FormatBool`. -/
def strconv.FormatBool (b : Bool) : String := if b then "true" else "false"

/-- Go `strconv.Itoa` on a length. -/
def strconv.Itoa (n : Nat) : String := toString n

/-- The summary line of one certificate. -/
def MakeIssuerString (env : Env) (cert : Certificate) (result : ResultSet)
    (validationInterface : JSON) : Except Abort String :=
  match FillOutValidationStruct validationInterface with
  | Except.error a => Except.error a
  | Except.ok validation =>
    let issuerDn := env.NameString cert.Issuer
    let issuerDn := issuerDn.replace ", " ":"
    let subjectDn := env.NameString cert.Subject
    let subjectDn := subjectDn.replace ", " ":"
    let numErrors := result.Errors.length
    let numWarnings := result.Warnings.length
    let numFatals := result.Fatals.length
    let notBefore := env.TimeString cert.NotBefore
    let notAfter := env.TimeString cert.NotAfter
    let sha256fp := env.Hex cert.FingerprintSHA256
    let outputString := ""
    let outputString := outputString ++ (strconv.Itoa numErrors ++ "," ++ strconv.Itoa numWarnings
      ++ "," ++ strconv.FormatBool validation.nssValid ++ ","
      ++ strconv.FormatBool validation.nssWasValid ++ "," ++ notBefore ++ "," ++ notAfter ++ ","
      ++ issuerDn ++ "," ++ subjectDn ++ "," ++ sha256fp ++ "," ++ strconv.Itoa numFatals ++ ","
      ++ ",".intercalate result.Errors ++ "," ++ ",".intercalate result.Warnings ++ "\n")
    Except.ok outputString

/-- What a worker has done so far: the writes to the JSON output file and to
the summary output file, the certificates handed to
`zlint.LintCertificate`, and the lines logged, each in order. -/
structure Worker where
  outFile : List Bytes := []
  outProcessFile : List String := []
  linted : List Certificate := []
  log : List String := []

/-- Lines 108 to 113 of `ProcessCertificate`: the summary line of a parsed
certificate. -/
def ProcessCertificate.processedString (env : Env) (parsed : Certificate)
    (zlintResult : ResultSet) (validation : JSON) : Except Abort String :=
  if JSON.notNil validation then MakeIssuerString env parsed zlintResult validation
  else Except.ok "\n"

/-- The body of the loop of `ProcessCertificate` on one record taken from the
channel: the state of the worker afterwards and, when the process stops
there, the abort. -/
def ProcessCertificate.body (env : Env) (crashIfParseFail : Bool) (w : Worker) (raw : JSON) :
    Worker × Option Abort :=
  match raw with
  | JSON.object zdbData =>
    let raw := JSON.index zdbData "raw"
    let validation := JSON.index zdbData "validation"
    match raw with
    | JSON.string rawString =>
      match env.DecodeString rawString with
      | (der, _) =>
        match env.ParseCertificate der with
        | Except.error err =>
          if crashIfParseFail then
            (w, some (Abort.logFatal ("could not parse certificate with error: " ++ err)))
          else
            ({ w with log := w.log ++ ["could not parse certificate with error: " ++ err] }, none)
        | Except.ok parsed =>
          let zlintResult := env.LintCertificate parsed
          let w := { w with linted := w.linted ++ [parsed] }
          match ProcessCertificate.processedString env parsed zlintResult validation with
          | Except.error a => (w, some a)
          | Except.ok processedString =>
            match CustomMarshal env validation zlintResult der parsed with
            | Except.error _ => (w, some (Abort.logFatal "could not parse JSON."))
            | Except.ok jsonResult =>
              ({ w with
                  outProcessFile := w.outProcessFile ++ [processedString],
                  outFile := w.outFile ++ [jsonResult, [10]] }, none)
    | _ => (w, some (Abort.panic "interface conversion: raw is not string"))
  | _ => (w, some (Abort.panic "interface conversion: record is not map[string]interface {}"))

/-- How a run of a worker ends: its state, the abort when the process was
stopped, and the records it had not taken from the channel by then. -/
structure Run where
  worker : Worker
  abort : Option Abort
  unprocessed : List JSON

/-- The loop `for raw := range in` over the records the worker receives. -/
def ProcessCertificate.loop (env : Env) (crashIfParseFail : Bool) : Worker → List JSON → Run
  | w, [] => { worker := w, abort := none, unprocessed := [] }
  | w, raw :: rest =>
    match ProcessCertificate.body env crashIfParseFail w raw with
    | (w, none) => ProcessCertificate.loop env crashIfParseFail w rest
    | (w, some a) => { worker := w, abort := some a, unprocessed := rest }

/-- The worker: it logs that it starts, then runs the loop. -/
def ProcessCertificate (env : Env) (crashIfParseFail : Bool) (w : Worker) (records : List JSON) :
    Run :=
  ProcessCertificate.loop env crashIfParseFail
    { w with log := w.log ++ ["Processing certificates..."] } records

/-- The worker, started in state `w` with the flag unset, stops with a panic
at the record `bad`: nothing is written and no certificate is linted for it,
and the records `rest` behind it are never taken from the channel. -/
def ProcessCertificate.panicsAt (env : Env) (w : Worker) (bad : JSON) (rest : List JSON) : Prop :=
  (∃ what, (ProcessCertificate env false w (bad :: rest)).abort = some (Abort.panic what)) ∧
  (ProcessCertificate env false w (bad :: rest)).unprocessed = rest ∧
  (ProcessCertificate env false w (bad :: rest)).worker.outFile = w.outFile ∧
  (ProcessCertificate env false w (bad :: rest)).worker.outProcessFile = w.outProcessFile ∧
  (ProcessCertificate env false w (bad :: rest)).worker.linted = w.linted

/-! ## Sample values -/

/-- A sample of package `util`: a root certificate is a self-signed CA
certificate, a subscriber certificate is neither; the cut-off is
2011-01-01T00:00:00Z in seconds since the epoch; the issuer whitespace check
looks at the first byte only. -/
def sampleUtil : Util where
  IsRootCA := fun c => c.IsCA && c.SelfSigned
  IsSubscriberCert := fun c => !c.IsCA && !c.SelfSigned
  NoRSA1024RootDate := 1293840000
  CheckRDNSequenceWhiteSpace := fun raw =>
    match raw with
    | [] => (false, false, some "asn1: syntax error")
    | b :: _ => (decide (b = 32), false, none)

/-- A root certificate of 2001 with a (toy) RSA key. -/
def sampleRoot : Certificate :=
  { NotBefore := 1000000000, NotAfter := 1900000000,
    PublicKeyAlgorithm := PublicKeyAlgorithm.RSA,
    PublicKey := PublicKey.rsa { N := 3233, E := 17 },
    IsCA := true, SelfSigned := true }

/-- A subscriber certificate with a givenName and the individual-validated
policy. -/
def sampleSubscriber : Certificate :=
  { Subject := { Names := [{ Typ := [2, 5, 4, 42], Value := "Ada" }], GivenName := ["Ada"] },
    PolicyIdentifiers := [[2, 23, 140, 1, 2, 3]] }

/-- A certificate asserting the organization-validated policy, with an
organizationName in the subject. -/
def sampleOrg : Certificate :=
  { Subject := { Names := [{ Typ := [2, 5, 4, 10], Value := "Example Org" }] },
    PolicyIdentifiers := [[2, 23, 140, 1, 2, 2]] }

/-- The UCS-2 encoding of 200 times the letter `a` (two bytes, 0 and 97,
for each). -/
def bmp200Bytes : Bytes := (List.replicate 200 [0, 97]).flatten

/-- A BMPString of exactly 200 characters. -/
def bmp200Text : RawValue := { Tag := TagBMPString, Bytes := bmp200Bytes }

/-- A certificate whose only explicitText is a BMPString of exactly 200
characters. -/
def sampleBmp200 : Certificate := { ExplicitTexts := [[bmp200Text]] }

/-- The value of a character code in the standard base64 alphabet. -/
def base64.decodeMap (code : Nat) : Option Nat :=
  if 65 ≤ code ∧ code ≤ 90 then some (code - 65)
  else if 97 ≤ code ∧ code ≤ 122 then some (code - 71)
  else if 48 ≤ code ∧ code ≤ 57 then some (code + 4)
  else if code = 43 then some 62
  else if code = 47 then some 63
  else none

/-- The bytes of one quantum of sextets: four sextets carry three bytes,
three carry two, two carry one. -/
def base64.quantum (q : List Nat) : Bytes :=
  let val := q.getD 0 0 * 262144 + q.getD 1 0 * 4096 + q.getD 2 0 * 64 + q.getD 3 0
  [val / 65536 % 256, val / 256 % 256, val % 256].take (q.length - 1)

/-- Skips line feeds and carriage returns. -/
def base64.skipNewlines : List Nat → List Nat
  | [] => []
  | code :: rest => if code = 10 ∨ code = 13 then base64.skipNewlines rest else code :: rest

/-- A rendering of the decoder of Go `encoding/base64` with the standard
padded alphabet, on character codes: `q` is the quantum being read, `out` the
bytes decoded so far. As in Go, the bytes decoded before a corrupt character
are returned together with the error. -/
def base64.decode : List Nat → List Nat → Bytes → Bytes × Option String
  | [], q, out =>
    match q with
    | [] => (out, none)
    | _ => (out, some "illegal base64 data")
  | code :: rest, q, out =>
    match base64.decodeMap code with
    | some v =>
      if q.length = 3 then base64.decode rest [] (out ++ base64.quantum (q ++ [v]))
      else base64.decode rest (q ++ [v]) out
    | none =>
      if code = 10 ∨ code = 13 then base64.decode rest q out
      else if code = 61 then
        if q.length < 2 then (out, some "illegal base64 data")
        else
          let afterPad : Option (List Nat) :=
            if q.length = 2 then
              match base64.skipNewlines rest with
              | 61 :: r => some r
              | _ => none
            else some rest
          match afterPad with
          | none => (out, some "illegal base64 data")
          | some r =>
            match base64.skipNewlines r with
            | [] => (out ++ base64.quantum q, none)
            | _ => (out ++ base64.quantum q, some "illegal base64 data")
      else (out, some "illegal base64 data")

/-- A sample of the libraries around the worker. The base64 decoder is the
rendering above. The certificate decoder is a stand-in: it accepts a byte
string made of the SEQUENCE tag 48, a length byte and that many bytes, which
it takes for the raw issuer. The linter warns on a leading blank in the raw
issuer, and the marshalling returns the raw bytes. -/
def sampleEnv : Env where
  DecodeString := fun s => base64.decode (s.toList.map Char.toNat) [] []
  ParseCertificate := fun der =>
    match der with
    | 48 :: len :: body =>
      if body.length = len then Except.ok { RawIssuer := body, FingerprintSHA256 := der }
      else Except.error "asn1: syntax error: data truncated"
    | _ => Except.error "asn1: structure error"
  LintCertificate := fun c =>
    { Warnings := if (sampleUtil.CheckRDNSequenceWhiteSpace c.RawIssuer).1 then
        ["w_issuer_dn_leading_whitespace"] else [] }
  Marshal := fun _ _ raw _ => Except.ok raw
  NameString := fun name => ", ".intercalate (name.Names.map fun atv => atv.Value)
  TimeString := fun t => toString t
  Hex := fun b => String.join (b.map fun x => toString x)

/-- The certificate the stand-in decoder reads from the bytes 48, 1, 0. -/
def sampleParsed : Certificate := { RawIssuer := [0], FingerprintSHA256 := [48, 1, 0] }

/-- An annotation of the expected shape: an object with an `nss` object
holding boolean `valid` and `was_valid`. -/
def sampleValidation : JSON :=
  JSON.object [("nss", JSON.object [("valid", JSON.bool true), ("was_valid", JSON.bool false)])]

/-- The shape `FillOutValidationStruct` expects of an annotation: an object
with an `nss` object holding boolean `valid` and `was_valid` fields. -/
def JSON.validationShaped (validation : JSON) : Prop :=
  ∃ validationMap nssMap nssValid nssWasValid,
    validation = JSON.object validationMap ∧
    JSON.index validationMap "nss" = JSON.object nssMap ∧
    JSON.index nssMap "valid" = JSON.bool nssValid ∧
    JSON.index nssMap "was_valid" = JSON.bool nssWasValid

/-! ## Lemmas on the library functions -/

theorem ObjectIdentifier.Equal_iff (oi other : ObjectIdentifier) :
    ObjectIdentifier.Equal oi other = true ↔ oi = other := by
  induction oi generalizing other with
  | nil => cases other <;> simp [ObjectIdentifier.Equal]
  | cons a oi ih =>
    cases other with
    | nil => simp [ObjectIdentifier.Equal]
    | cons b other =>
      by_cases hab : a = b
      · simp [ObjectIdentifier.Equal, hab, ih]
      · simp [ObjectIdentifier.Equal, hab]

theorem util.SliceContainsOID_iff (list : List ObjectIdentifier) (oid : ObjectIdentifier) :
    util.SliceContainsOID list oid = true ↔ oid ∈ list := by
  induction list with
  | nil => simp [util.SliceContainsOID]
  | cons v list ih =>
    by_cases h : oid = v
    · subst h
      simp [util.SliceContainsOID, (ObjectIdentifier.Equal_iff oid oid).mpr rfl]
    · have hne : ObjectIdentifier.Equal oid v = false := by
        rw [Bool.eq_false_iff]
        exact fun hh => h ((ObjectIdentifier.Equal_iff oid v).mp hh)
      simp [util.SliceContainsOID, hne, h, ih]

theorem util.TypeInName_iff (name : Name) (oid : ObjectIdentifier) :
    util.TypeInName name oid = true ↔ ∃ atv ∈ name.Names, atv.Typ = oid := by
  unfold util.TypeInName
  induction name.Names with
  | nil => simp [util.TypeInName.scan]
  | cons v names ih =>
    by_cases h : oid = v.Typ
    · subst h
      simp [util.TypeInName.scan, (ObjectIdentifier.Equal_iff v.Typ v.Typ).mpr rfl]
    · have hne : ObjectIdentifier.Equal oid v.Typ = false := by
        rw [Bool.eq_false_iff]
        exact fun hh => h ((ObjectIdentifier.Equal_iff oid v.Typ).mp hh)
      have h2 : ¬ v.Typ = oid := fun hh => h hh.symm
      simp [util.TypeInName.scan, hne, h2, ih]

theorem length_flatten_replicate_pair (n a b : Nat) :
    ((List.replicate n [a, b]).flatten).length = 2 * n := by
  induction n with
  | zero => rfl
  | succ n ih =>
    rw [List.replicate_succ, List.flatten_cons, List.length_append, ih]
    simp only [List.length_cons, List.length_nil]
    omega

theorem bmp200Bytes_length : bmp200Bytes.length = 400 :=
  length_flatten_replicate_pair 200 0 97

theorem bigInt.BitLen_lt_iff (x : Int) (k : Nat) :
    bigInt.BitLen x < k + 1 ↔ x.natAbs < 2 ^ k := by
  unfold bigInt.BitLen
  rw [Nat.lt_succ_iff, Nat.size_le]

theorem explicitTextTooLong.Execute.inner_eq_some_iff (texts : List RawValue) (r : LintResult) :
    explicitTextTooLong.Execute.inner texts = some r ↔
      r = { Status := LintStatus.Error } ∧ ∃ text ∈ texts, 200 < text.Bytes.length := by
  induction texts with
  | nil => simp [explicitTextTooLong.Execute.inner]
  | cons text rest ih =>
    by_cases h : 200 < text.Bytes.length
    · simp only [explicitTextTooLong.Execute.inner, h, if_true, Option.some.injEq]
      constructor
      · intro hr
        exact ⟨hr.symm, text, List.mem_cons_self _ _, h⟩
      · rintro ⟨hr, _⟩
        exact hr.symm
    · simp [explicitTextTooLong.Execute.inner, h, ih]

/-- What the code of the explicitText lint decides: `Error` exactly when some
explicitText has more than 200 content bytes, `Pass` otherwise. -/
theorem explicitTextTooLong.Execute_eq_Error_iff_bytes (c : Certificate) :
    (explicitTextTooLong.Execute c = { Status := LintStatus.Error } ↔
      ∃ firstLvl ∈ c.ExplicitTexts, ∃ text ∈ firstLvl, 200 < text.Bytes.length) ∧
    (explicitTextTooLong.Execute c = { Status := LintStatus.Pass } ↔
      ¬ ∃ firstLvl ∈ c.ExplicitTexts, ∃ text ∈ firstLvl, 200 < text.Bytes.length) := by
  unfold explicitTextTooLong.Execute
  induction c.ExplicitTexts with
  | nil => simp [explicitTextTooLong.Execute.outer]
  | cons firstLvl rest ih =>
    cases hin : explicitTextTooLong.Execute.inner firstLvl with
    | none =>
      have hno : ¬ ∃ text ∈ firstLvl, 200 < text.Bytes.length := by
        intro hex
        have := (explicitTextTooLong.Execute.inner_eq_some_iff firstLvl
          { Status := LintStatus.Error }).mpr ⟨rfl, hex⟩
        rw [hin] at this
        exact Option.noConfusion this
      simp only [explicitTextTooLong.Execute.outer, hin, List.mem_cons, exists_eq_or_imp, hno,
        false_or]
      exact ih
    | some r =>
      obtain ⟨hr, hex⟩ := (explicitTextTooLong.Execute.inner_eq_some_iff firstLvl r).mp hin
      subst hr
      simp only [explicitTextTooLong.Execute.outer, hin, List.mem_cons, exists_eq_or_imp, hex,
        true_or, not_true_eq_false, iff_false, true_iff]
      decide

/-! ## The claims on the lints -/

/-- C2: on every certificate to which the RSA root modulus lint applies
(`CheckApplies` is true) the public key is an RSA public key, so `Execute`
does not panic, and the status it returns is Pass or Error. -/
theorem rootCaModSize_Execute_ok_of_CheckApplies (u : Util) (c : Certificate)
    (h : rootCaModSize.CheckApplies u c = true) :
    (∃ key, c.PublicKey = PublicKey.rsa key) ∧
      ∃ r, rootCaModSize.Execute c = Except.ok r ∧
        (r = { Status := LintStatus.Pass } ∨ r = { Status := LintStatus.Error }) := by
  unfold rootCaModSize.CheckApplies at h
  cases hk : c.PublicKey with
  | rsa key =>
    refine ⟨⟨key, rfl⟩, ?_⟩
    unfold rootCaModSize.Execute
    rw [hk]
    by_cases hb : bigInt.BitLen key.N < 2048
    · exact ⟨_, by simp only [hb, if_true], Or.inr rfl⟩
    · exact ⟨_, by simp only [hb, if_false], Or.inl rfl⟩
  | nil => simp [hk] at h
  | dsa => simp [hk] at h
  | ecdsa => simp [hk] at h

/-- The lint applies to the sample root certificate, and `Execute` returns
without a panic on it. -/
theorem rootCaModSize_Execute_ok_of_CheckApplies_witness :
    rootCaModSize.CheckApplies sampleUtil sampleRoot = true ∧
    ((∃ key, sampleRoot.PublicKey = PublicKey.rsa key) ∧
      ∃ r, rootCaModSize.Execute sampleRoot = Except.ok r ∧
        (r = { Status := LintStatus.Pass } ∨ r = { Status := LintStatus.Error })) :=
  ⟨by decide, rootCaModSize_Execute_ok_of_CheckApplies sampleUtil sampleRoot (by decide)⟩

/-- C3: for every certificate whose public key is an RSA key with modulus
`N` (a non-negative integer), `Execute` returns Pass when `N ≥ 2^2047` (the
modulus is at least 2048 bits long) and Error when `N < 2^2047`; it returns
no other status. -/
theorem rootCaModSize_Execute_modulus (c : Certificate) (key : rsa.PublicKey)
    (hkey : c.PublicKey = PublicKey.rsa key) (hN : 0 ≤ key.N) :
    (2 ^ 2047 ≤ key.N → rootCaModSize.Execute c = Except.ok { Status := LintStatus.Pass }) ∧
    (key.N < 2 ^ 2047 → rootCaModSize.Execute c = Except.ok { Status := LintStatus.Error }) ∧
    (rootCaModSize.Execute c = Except.ok { Status := LintStatus.Pass } ∨
      rootCaModSize.Execute c = Except.ok { Status := LintStatus.Error }) := by
  have hbit : bigInt.BitLen key.N < 2048 ↔ key.N < 2 ^ 2047 := by
    rw [bigInt.BitLen_lt_iff key.N 2047]
    constructor
    · intro h
      have h2 : ((key.N.natAbs : Nat) : Int) < ((2 ^ 2047 : Nat) : Int) := Int.ofNat_lt.mpr h
      rw [Int.natAbs_of_nonneg hN] at h2
      exact_mod_cast h2
    · intro h
      have h2 : ((key.N.natAbs : Nat) : Int) < ((2 ^ 2047 : Nat) : Int) := by
        rw [Int.natAbs_of_nonneg hN]
        exact_mod_cast h
      exact Int.ofNat_lt.mp h2
  unfold rootCaModSize.Execute
  rw [hkey]
  refine ⟨fun h => ?_, fun h => ?_, ?_⟩
  · have hb : ¬ bigInt.BitLen key.N < 2048 := fun hb => absurd (hbit.mp hb) (not_lt.mpr h)
    simp only [hb, if_false]
  · simp only [hbit.mpr h, if_true]
  · by_cases hb : bigInt.BitLen key.N < 2048
    · exact Or.inr (by simp only [hb, if_true])
    · exact Or.inl (by simp only [hb, if_false])

/-- A modulus of exactly 2048 bits passes. -/
theorem rootCaModSize_Execute_modulus_witness :
    (0 : Int) ≤ 2 ^ 2047 ∧
    rootCaModSize.Execute { sampleRoot with PublicKey := PublicKey.rsa { N := 2 ^ 2047, E := 65537 } }
      = Except.ok { Status := LintStatus.Pass } :=
  ⟨by positivity,
    (rootCaModSize_Execute_modulus
      { sampleRoot with PublicKey := PublicKey.rsa { N := 2 ^ 2047, E := 65537 } }
      { N := 2 ^ 2047, E := 65537 } rfl (by positivity)).1 (le_refl _)⟩

/-- C4, at the input where the code departs from it: the only explicitText of
`sampleBmp200` is a BMPString of exactly 200 characters, so no explicitText
of the certificate is longer than 200 characters, and `Execute` returns
Error: it compares the 400 content bytes with 200. -/
theorem explicitTextTooLong_Execute_bmp200 :
    (∀ firstLvl ∈ sampleBmp200.ExplicitTexts, ∀ text ∈ firstLvl,
      text.Tag = TagBMPString ∧ explicitTextCharacters text = 200) ∧
    ¬ someExplicitTextOver200Characters sampleBmp200 ∧
    explicitTextTooLong.Execute sampleBmp200 = { Status := LintStatus.Error } := by
  have hlen : bmp200Text.Bytes.length = 400 := bmp200Bytes_length
  have htag : bmp200Text.Tag = TagBMPString := rfl
  have hmem : ∀ firstLvl ∈ sampleBmp200.ExplicitTexts, ∀ text ∈ firstLvl, text = bmp200Text := by
    intro firstLvl h1 text h2
    have h1 : firstLvl = [bmp200Text] := by simpa [sampleBmp200] using h1
    subst h1
    simpa using h2
  refine ⟨?_, ?_, ?_⟩
  · intro firstLvl h1 text h2
    rw [hmem firstLvl h1 text h2]
    refine ⟨htag, ?_⟩
    unfold explicitTextCharacters
    rw [if_pos htag, hlen]
  · rintro ⟨firstLvl, h1, text, h2, h3⟩
    rw [hmem firstLvl h1 text h2] at h3
    unfold explicitTextCharacters at h3
    rw [if_pos htag, hlen] at h3
    omega
  · have hgt : 200 < bmp200Text.Bytes.length := by rw [hlen]; omega
    simp only [explicitTextTooLong.Execute, sampleBmp200, explicitTextTooLong.Execute.outer,
      explicitTextTooLong.Execute.inner, gt_iff_lt, hgt, if_true]

theorem subCertSubjectGnOrSnContainsPolicy.Execute.loop_cases (ids : List ObjectIdentifier) :
    (([2, 23, 140, 1, 2, 3] : ObjectIdentifier) ∈ ids ∧
      subCertSubjectGnOrSnContainsPolicy.Execute.loop ids = { Status := LintStatus.Pass }) ∨
    (([2, 23, 140, 1, 2, 3] : ObjectIdentifier) ∉ ids ∧
      subCertSubjectGnOrSnContainsPolicy.Execute.loop ids = { Status := LintStatus.Error }) := by
  induction ids with
  | nil => exact Or.inr ⟨List.not_mem_nil _, rfl⟩
  | cons policyIds rest ih =>
    by_cases h : policyIds = util.BRIndividualValidatedOID
    · left
      refine ⟨by rw [h]; exact List.mem_cons_self _ _, ?_⟩
      unfold subCertSubjectGnOrSnContainsPolicy.Execute.loop
      rw [if_pos ((ObjectIdentifier.Equal_iff _ _).mpr h)]
    · have hne : ¬ ObjectIdentifier.Equal policyIds util.BRIndividualValidatedOID = true :=
        fun hh => h ((ObjectIdentifier.Equal_iff _ _).mp hh)
      have hstep : subCertSubjectGnOrSnContainsPolicy.Execute.loop (policyIds :: rest)
          = subCertSubjectGnOrSnContainsPolicy.Execute.loop rest := by
        rw [subCertSubjectGnOrSnContainsPolicy.Execute.loop, if_neg hne]
      rw [hstep]
      rcases ih with ⟨hm, hr⟩ | ⟨hm, hr⟩
      · exact Or.inl ⟨List.mem_cons_of_mem _ hm, hr⟩
      · refine Or.inr ⟨?_, hr⟩
        intro hmem
        rcases List.mem_cons.mp hmem with heq | hin
        · exact h heq.symm
        · exact hm hin

/-- C5: for every certificate to which the givenName/surname lint applies
(a subscriber certificate whose subject has a non-empty givenName or
surname), `Execute` returns Pass if and only if the policy identifiers
contain 2.23.140.1.2.3 and Error otherwise, also when the list of policy
identifiers is empty. -/
theorem subCertSubjectGnOrSnContainsPolicy_Execute_iff (u : Util) (c : Certificate)
    (_h : subCertSubjectGnOrSnContainsPolicy.CheckApplies u c = true) :
    (subCertSubjectGnOrSnContainsPolicy.Execute c = { Status := LintStatus.Pass } ↔
      ([2, 23, 140, 1, 2, 3] : ObjectIdentifier) ∈ c.PolicyIdentifiers) ∧
    (subCertSubjectGnOrSnContainsPolicy.Execute c = { Status := LintStatus.Error } ↔
      ([2, 23, 140, 1, 2, 3] : ObjectIdentifier) ∉ c.PolicyIdentifiers) ∧
    (c.PolicyIdentifiers = [] →
      subCertSubjectGnOrSnContainsPolicy.Execute c = { Status := LintStatus.Error }) := by
  unfold subCertSubjectGnOrSnContainsPolicy.Execute
  have hne : ({ Status := LintStatus.Pass } : LintResult) ≠ { Status := LintStatus.Error } := by
    decide
  rcases subCertSubjectGnOrSnContainsPolicy.Execute.loop_cases c.PolicyIdentifiers with
    ⟨hm, hr⟩ | ⟨hm, hr⟩
  · rw [hr]
    refine ⟨⟨fun _ => hm, fun _ => rfl⟩, ⟨fun he => absurd he hne, fun hn => absurd hm hn⟩, ?_⟩
    intro hnil
    rw [hnil] at hm
    exact absurd hm (List.not_mem_nil _)
  · rw [hr]
    exact ⟨⟨fun he => absurd he.symm hne, fun hin => absurd hin hm⟩,
      ⟨fun _ => hm, fun _ => rfl⟩, fun _ => rfl⟩

/-- The lint applies to the sample subscriber certificate, which passes. -/
theorem subCertSubjectGnOrSnContainsPolicy_Execute_iff_witness :
    subCertSubjectGnOrSnContainsPolicy.CheckApplies sampleUtil sampleSubscriber = true ∧
    subCertSubjectGnOrSnContainsPolicy.Execute sampleSubscriber = { Status := LintStatus.Pass } :=
  ⟨by decide,
    (subCertSubjectGnOrSnContainsPolicy_Execute_iff sampleUtil sampleSubscriber (by decide)).1.mpr
      (by decide)⟩

/-- C6: the organizationName lint applies to a certificate exactly when its
policy identifiers include 2.23.140.1.2.2, and for every such certificate
`RunTest` returns, with a nil error, the result Pass if the subject includes
an organizationName (an attribute of type 2.5.4.10) and Error if it does
not. -/
theorem CertPolicyRequiresOrg_applies_and_RunTest (cert : Certificate) :
    (CertPolicyRequiresOrg.CheckApplies cert = true ↔
      ([2, 23, 140, 1, 2, 2] : ObjectIdentifier) ∈ cert.PolicyIdentifiers) ∧
    (CertPolicyRequiresOrg.CheckApplies cert = true →
      ((∃ atv ∈ cert.Subject.Names, atv.Typ = [2, 5, 4, 10]) →
        CertPolicyRequiresOrg.RunTest cert = ({ Result := LintStatus.Pass }, none)) ∧
      ((¬ ∃ atv ∈ cert.Subject.Names, atv.Typ = [2, 5, 4, 10]) →
        CertPolicyRequiresOrg.RunTest cert = ({ Result := LintStatus.Error }, none))) := by
  refine ⟨util.SliceContainsOID_iff _ _, fun _ => ⟨fun hex => ?_, fun hno => ?_⟩⟩
  · have ht : util.TypeInName cert.Subject util.OrganizationNameOID = true :=
      (util.TypeInName_iff _ _).mpr hex
    simp only [CertPolicyRequiresOrg.RunTest, ht, if_true]
  · have ht : ¬ util.TypeInName cert.Subject util.OrganizationNameOID = true :=
      fun hh => hno ((util.TypeInName_iff _ _).mp hh)
    simp [CertPolicyRequiresOrg.RunTest, ht]

/-- The lint applies to the sample organization certificate, which passes. -/
theorem CertPolicyRequiresOrg_applies_and_RunTest_witness :
    CertPolicyRequiresOrg.CheckApplies sampleOrg = true ∧
    CertPolicyRequiresOrg.RunTest sampleOrg = ({ Result := LintStatus.Pass }, none) :=
  ⟨by decide,
    ((CertPolicyRequiresOrg_applies_and_RunTest sampleOrg).2 (by decide)).1
      ⟨{ Typ := [2, 5, 4, 10], Value := "Example Org" }, by decide, rfl⟩⟩

/-- C7: the issuer whitespace lint applies to every certificate, and for
every certificate `Execute` returns Warn exactly when the raw issuer parses
(`util.CheckRDNSequenceWhiteSpace` returns no error) and the leading
whitespace flag is set, Pass exactly when it parses and the flag is not set,
Fatal exactly when it does not parse; it never returns Error. -/
theorem IssuerDNLeadingSpace_Execute_cases (u : Util) (c : Certificate) :
    IssuerDNLeadingSpace.CheckApplies c = true ∧
    (IssuerDNLeadingSpace.Execute u c = { Status := LintStatus.Warn } ↔
      (u.CheckRDNSequenceWhiteSpace c.RawIssuer).2.2 = none ∧
        (u.CheckRDNSequenceWhiteSpace c.RawIssuer).1 = true) ∧
    (IssuerDNLeadingSpace.Execute u c = { Status := LintStatus.Pass } ↔
      (u.CheckRDNSequenceWhiteSpace c.RawIssuer).2.2 = none ∧
        (u.CheckRDNSequenceWhiteSpace c.RawIssuer).1 = false) ∧
    (IssuerDNLeadingSpace.Execute u c = { Status := LintStatus.Fatal } ↔
      (u.CheckRDNSequenceWhiteSpace c.RawIssuer).2.2 ≠ none) ∧
    IssuerDNLeadingSpace.Execute u c ≠ { Status := LintStatus.Error } := by
  unfold IssuerDNLeadingSpace.Execute IssuerDNLeadingSpace.CheckApplies
  rcases hr : u.CheckRDNSequenceWhiteSpace c.RawIssuer with ⟨leading, trailing, err⟩
  cases err with
  | some e => cases leading <;> simp
  | none => cases leading <;> simp

/-! ## The batch worker -/

/-- The summary line `MakeIssuerString` builds from the two flags of a
well-shaped annotation. -/
theorem MakeIssuerString_of_shaped (env : Env) (cert : Certificate) (result : ResultSet)
    (validationMap nssMap : List (String × JSON)) (nssValid nssWasValid : Bool)
    (hnss : JSON.index validationMap "nss" = JSON.object nssMap)
    (hvalid : JSON.index nssMap "valid" = JSON.bool nssValid)
    (hwas : JSON.index nssMap "was_valid" = JSON.bool nssWasValid) :
    MakeIssuerString env cert result (JSON.object validationMap) =
      Except.ok ("" ++ (strconv.Itoa result.Errors.length ++ "," ++
        strconv.Itoa result.Warnings.length ++ "," ++ strconv.FormatBool nssValid ++ "," ++
        strconv.FormatBool nssWasValid ++ "," ++ env.TimeString cert.NotBefore ++ "," ++
        env.TimeString cert.NotAfter ++ "," ++ (env.NameString cert.Issuer).replace ", " ":" ++
        "," ++ (env.NameString cert.Subject).replace ", " ":" ++ "," ++
        env.Hex cert.FingerprintSHA256 ++ "," ++ strconv.Itoa result.Fatals.length ++ "," ++
        ",".intercalate result.Errors ++ "," ++ ",".intercalate result.Warnings ++ "\n")) := by
  simp only [MakeIssuerString, FillOutValidationStruct, hnss, hvalid, hwas]

/-- With the flag unset, a record whose decoded bytes the certificate decoder
rejects is dropped: the worker goes on, the linter is not run, nothing is
written to either file; one line is logged. -/
theorem ProcessCertificate.body_of_parse_error (env : Env) (w : Worker)
    (members : List (String × JSON)) (s : String) (err : String)
    (hraw : JSON.index members "raw" = JSON.string s)
    (hparse : env.ParseCertificate (env.DecodeString s).1 = Except.error err) :
    ProcessCertificate.body env false w (JSON.object members) =
      ({ w with log := w.log ++ ["could not parse certificate with error: " ++ err] }, none) := by
  rcases hdec : env.DecodeString s with ⟨der, e⟩
  rw [hdec] at hparse
  simp only [ProcessCertificate.body, hraw, hdec, hparse, Bool.false_eq_true, if_false]

/-- The loop takes the next record exactly when the body did not abort. -/
theorem ProcessCertificate.loop_cons_of_ok (env : Env) (crashIfParseFail : Bool)
    (w w2 : Worker) (raw : JSON) (rest : List JSON)
    (h : ProcessCertificate.body env crashIfParseFail w raw = (w2, none)) :
    ProcessCertificate.loop env crashIfParseFail w (raw :: rest) =
      ProcessCertificate.loop env crashIfParseFail w2 rest := by
  rw [ProcessCertificate.loop, h]

/-- With the flag unset the loop passes over a record whose decoded bytes the
certificate decoder rejects and goes on with the records behind it. -/
theorem ProcessCertificate.loop_skips_unparsable (env : Env) (w : Worker)
    (members : List (String × JSON)) (s : String) (err : String) (rest : List JSON)
    (hraw : JSON.index members "raw" = JSON.string s)
    (hparse : env.ParseCertificate (env.DecodeString s).1 = Except.error err) :
    ProcessCertificate.loop env false w (JSON.object members :: rest) =
      ProcessCertificate.loop env false
        { w with log := w.log ++ ["could not parse certificate with error: " ++ err] } rest :=
  ProcessCertificate.loop_cons_of_ok env false w _ _ rest
    (ProcessCertificate.body_of_parse_error env w members s err hraw hparse)

/-- The four type assertions of `FillOutValidationStruct` succeed exactly on
an annotation of the expected shape. -/
theorem FillOutValidationStruct_ok_iff (validation : JSON) :
    (∃ v, FillOutValidationStruct validation = Except.ok v) ↔
      JSON.validationShaped validation := by
  constructor
  · rintro ⟨v, hv⟩
    cases validation with
    | object validationMap =>
      cases hnss : JSON.index validationMap "nss" with
      | object nssMap =>
        cases hvalid : JSON.index nssMap "valid" with
        | bool nssValid =>
          cases hwas : JSON.index nssMap "was_valid" with
          | bool nssWasValid => exact ⟨_, _, _, _, rfl, hnss, hvalid, hwas⟩
          | null => simp [FillOutValidationStruct, hnss, hvalid, hwas] at hv
          | number _ => simp [FillOutValidationStruct, hnss, hvalid, hwas] at hv
          | string _ => simp [FillOutValidationStruct, hnss, hvalid, hwas] at hv
          | array _ => simp [FillOutValidationStruct, hnss, hvalid, hwas] at hv
          | object _ => simp [FillOutValidationStruct, hnss, hvalid, hwas] at hv
        | null => simp [FillOutValidationStruct, hnss, hvalid] at hv
        | number _ => simp [FillOutValidationStruct, hnss, hvalid] at hv
        | string _ => simp [FillOutValidationStruct, hnss, hvalid] at hv
        | array _ => simp [FillOutValidationStruct, hnss, hvalid] at hv
        | object _ => simp [FillOutValidationStruct, hnss, hvalid] at hv
      | null => simp [FillOutValidationStruct, hnss] at hv
      | bool _ => simp [FillOutValidationStruct, hnss] at hv
      | number _ => simp [FillOutValidationStruct, hnss] at hv
      | string _ => simp [FillOutValidationStruct, hnss] at hv
      | array _ => simp [FillOutValidationStruct, hnss] at hv
    | null => simp [FillOutValidationStruct] at hv
    | bool _ => simp [FillOutValidationStruct] at hv
    | number _ => simp [FillOutValidationStruct] at hv
    | string _ => simp [FillOutValidationStruct] at hv
    | array _ => simp [FillOutValidationStruct] at hv
  · rintro ⟨validationMap, nssMap, nssValid, nssWasValid, hv, hnss, hvalid, hwas⟩
    subst hv
    refine ⟨{ nssValid := nssValid, nssWasValid := nssWasValid }, ?_⟩
    simp only [FillOutValidationStruct, hnss, hvalid, hwas]

/-- The summary line of a parsed certificate is built without a panic exactly
when the annotation is absent or of the expected shape. -/
theorem ProcessCertificate.processedString_ok_iff (env : Env) (parsed : Certificate)
    (zlintResult : ResultSet) (validation : JSON) :
    (∃ line, ProcessCertificate.processedString env parsed zlintResult validation
      = Except.ok line) ↔
      (validation = JSON.null ∨ JSON.validationShaped validation) := by
  by_cases hnull : validation = JSON.null
  · subst hnull
    exact ⟨fun _ => Or.inl rfl, fun _ => ⟨"\n", rfl⟩⟩
  · have hnot : JSON.notNil validation = true := by
      cases validation <;> first | rfl | exact absurd rfl hnull
    have hps : ProcessCertificate.processedString env parsed zlintResult validation
        = MakeIssuerString env parsed zlintResult validation := by
      simp only [ProcessCertificate.processedString, hnot, if_true]
    rw [hps]
    constructor
    · rintro ⟨line, hline⟩
      right
      apply (FillOutValidationStruct_ok_iff validation).mp
      cases hfill : FillOutValidationStruct validation with
      | ok v => exact ⟨v, rfl⟩
      | error a => simp [MakeIssuerString, hfill] at hline
    · rintro (h | h)
      · exact absurd h hnull
      · obtain ⟨validationMap, nssMap, nssValid, nssWasValid, hv, hnss, hvalid, hwas⟩ := h
        subst hv
        exact ⟨_, MakeIssuerString_of_shaped env parsed zlintResult validationMap nssMap
          nssValid nssWasValid hnss hvalid hwas⟩

/-- With the flag unset, the body does not stop the process on a record that
is an object with a string `raw` field and an annotation that is absent or of
the expected shape, whatever the base64 decoder and the certificate decoder
make of `raw`, as long as the marshalling succeeds. -/
theorem ProcessCertificate.body_no_abort (env : Env) (w : Worker)
    (members : List (String × JSON)) (s : String)
    (hraw : JSON.index members "raw" = JSON.string s)
    (hval : JSON.index members "validation" = JSON.null ∨
      JSON.validationShaped (JSON.index members "validation"))
    (hjson : ∀ v r b c, ∃ out, env.Marshal v r b c = Except.ok out) :
    (ProcessCertificate.body env false w (JSON.object members)).2 = none := by
  rcases hdec : env.DecodeString s with ⟨der, e⟩
  cases hparse : env.ParseCertificate der with
  | error err =>
    have hp : env.ParseCertificate (env.DecodeString s).1 = Except.error err := by
      rw [hdec]; exact hparse
    rw [ProcessCertificate.body_of_parse_error env w members s err hraw hp]
  | ok parsed =>
    obtain ⟨line, hline⟩ := (ProcessCertificate.processedString_ok_iff env parsed
      (env.LintCertificate parsed) (JSON.index members "validation")).mpr hval
    obtain ⟨out, hout⟩ := hjson (JSON.index members "validation") (env.LintCertificate parsed)
      der parsed
    simp only [ProcessCertificate.body, hraw, hdec, hparse, hline, CustomMarshal, hout]

/-- C1, at the inputs where the code departs from it: with the flag unset, a
record that is not a JSON object (null, a string) or that has no string
`raw` field (no `raw` at all, a number) stops the process with a panic:
nothing is written for it and every later record stays unprocessed. -/
theorem ProcessCertificate_panics_on_malformed_record (env : Env) (w : Worker)
    (rest : List JSON) (s n : String) :
    ProcessCertificate.panicsAt env w JSON.null rest ∧
    ProcessCertificate.panicsAt env w (JSON.string s) rest ∧
    ProcessCertificate.panicsAt env w (JSON.object []) rest ∧
    ProcessCertificate.panicsAt env w (JSON.object [("raw", JSON.number n)]) rest := by
  refine ⟨?_, ?_, ?_, ?_⟩ <;>
    simp [ProcessCertificate.panicsAt, ProcessCertificate, ProcessCertificate.loop,
      ProcessCertificate.body, JSON.index]

/-- C8, refuted as stated, at a concrete annotation: for a certificate that
parsed, an annotation that is a JSON string (so not of the expected shape) is
not treated as "no annotation"; building the summary line panics, and so
does the worker on the record carrying it. -/
theorem processedString_panics_on_string_annotation :
    ProcessCertificate.processedString sampleEnv sampleParsed {} (JSON.string "valid") =
      Except.error (Abort.panic "interface conversion: validation is not map[string]interface {}") ∧
    (ProcessCertificate sampleEnv false {}
      [JSON.object [("raw", JSON.string "MAEA"), ("validation", JSON.string "valid")]]).abort =
      some (Abort.panic "interface conversion: validation is not map[string]interface {}") := by
  constructor
  · rfl
  · rfl

/-- C8, amended: for every annotation that is absent (nil) or is an object
with an `nss` object holding boolean `valid` and `was_valid` fields, building
the summary line does not fail; an absent annotation is treated as "no
annotation", the line being a bare newline. -/
theorem processedString_ok_of_absent_or_shaped (env : Env) (parsed : Certificate)
    (zlintResult : ResultSet) (validation : JSON)
    (h : validation = JSON.null ∨ JSON.validationShaped validation) :
    ∃ line, ProcessCertificate.processedString env parsed zlintResult validation = Except.ok line ∧
      (validation = JSON.null → line = "\n") := by
  rcases h with h | ⟨validationMap, nssMap, nssValid, nssWasValid, hv, hnss, hvalid, hwas⟩
  · subst h
    exact ⟨"\n", rfl, fun _ => rfl⟩
  · subst hv
    have hline := MakeIssuerString_of_shaped env parsed zlintResult validationMap nssMap nssValid
      nssWasValid hnss hvalid hwas
    have hps : ProcessCertificate.processedString env parsed zlintResult
        (JSON.object validationMap)
        = MakeIssuerString env parsed zlintResult (JSON.object validationMap) := by
      simp only [ProcessCertificate.processedString, JSON.notNil, if_true]
    exact ⟨_, hps.trans hline, fun hnull => absurd hnull (fun hh => JSON.noConfusion hh)⟩

/-- The summary line is built for the sample annotation. -/
theorem processedString_ok_of_absent_or_shaped_witness :
    (sampleValidation = JSON.null ∨ JSON.validationShaped sampleValidation) ∧
    ∃ line, ProcessCertificate.processedString sampleEnv sampleParsed {} sampleValidation
      = Except.ok line ∧ (sampleValidation = JSON.null → line = "\n") :=
  have hshape : sampleValidation = JSON.null ∨ JSON.validationShaped sampleValidation :=
    Or.inr ⟨_, _, true, false, rfl, rfl, rfl, rfl⟩
  ⟨hshape, processedString_ok_of_absent_or_shaped sampleEnv sampleParsed {} sampleValidation hshape⟩

/-- C9, at the input where the code departs from it: with the flag unset, a
record whose `raw` string the base64 decoder rejects (it returns an error
next to the bytes decoded before the corrupt character) is not dropped when
those bytes parse as a certificate: the error is overwritten unread, the
linter is run on the certificate, and a line is written to the summary file
and a record to the JSON file. -/
theorem ProcessCertificate_body_keeps_record_after_base64_error (env : Env) (w : Worker)
    (members : List (String × JSON)) (s e : String) (der jsonResult : Bytes)
    (parsed : Certificate)
    (hraw : JSON.index members "raw" = JSON.string s)
    (hval : JSON.index members "validation" = JSON.null)
    (hdec : env.DecodeString s = (der, some e))
    (hparse : env.ParseCertificate der = Except.ok parsed)
    (hjson : env.Marshal JSON.null (env.LintCertificate parsed) der parsed = Except.ok jsonResult) :
    ProcessCertificate.body env false w (JSON.object members) =
      ({ w with
          linted := w.linted ++ [parsed],
          outProcessFile := w.outProcessFile ++ ["\n"],
          outFile := w.outFile ++ [jsonResult, [10]] }, none) := by
  simp only [ProcessCertificate.body, hraw, hval, hdec, hparse,
    ProcessCertificate.processedString, JSON.notNil, CustomMarshal, hjson, Bool.false_eq_true,
    if_false]

/-- In the sample environment the record with `raw` equal to `MAEA!`, which
the base64 decoder rejects at its last character, is linted and written. -/
theorem ProcessCertificate_body_keeps_record_after_base64_error_witness :
    sampleEnv.DecodeString "MAEA!" = ([48, 1, 0], some "illegal base64 data") ∧
    ProcessCertificate.body sampleEnv false {} (JSON.object [("raw", JSON.string "MAEA!")]) =
      ({ linted := [sampleParsed], outProcessFile := ["\n"], outFile := [[48, 1, 0], [10]] },
        none) :=
  ⟨rfl, ProcessCertificate_body_keeps_record_after_base64_error sampleEnv {}
    [("raw", JSON.string "MAEA!")] "MAEA!" "illegal base64 data" [48, 1, 0] [48, 1, 0]
    sampleParsed rfl rfl rfl rfl rfl⟩

end Zlint
